import Mathlib

/-
Verification of the serializer helpers in `serializers.py` and
`restframework_sassan/serializers.py` (`BulkListSerializer`,
`BaseModelSerializer`).  The Python code is shallowly embedded:

* Python dicts carrying validated payloads become association lists
  `Dict := List (String × Val)` with insert/lookup/pop mirroring dict
  semantics (unique keys, insertion order, overwrite-in-place);
* fallible Python operations (`dict.pop`, `int(...)`, `objects.get`,
  `objects.create`, `raise ValidationError`) become `Except PyErr _`;
* database records reached through the queryset become `BRec` values with
  an integer lookup field (the code's `update_lookup_field`, `'id'` by
  default) and an attribute dict;
* the object graph walked by the dotted-source update loop becomes an
  explicit heap `Heap := List (Nat × RecData)` of records addressed by
  `Nat`, with `vref` attribute values pointing into the heap, so Python's
  reference aliasing and per-record `save()` counting are explicit;
* external collaborators (the framework's standard field validation
  `super().to_internal_value`, the standard update `super().update`, the
  store's `objects.create`, the nested serializer's validate-and-save) are
  universally quantified function parameters: theorems hold for every
  behaviour of the collaborator, which is what "the code does not run /
  translate / depend on it" means.
-/

/-- Exceptions that the embedded Python code can raise. -/
inductive PyErr where
  | keyError (k : String)
  | valueError
  | typeError
  | validationError (msg : String)
  | doesNotExist
  | multipleObjects
deriving DecidableEq, Repr

deriving instance DecidableEq for Except

/-- Python values appearing in validated payloads and record attributes.
`vref` is a reference to a heap record (see `Heap`), `vempty` is the
framework's `empty` sentinel returned by `Field.get_value` when a key is
absent. -/
inductive Val where
  | vint (n : Int)
  | vstr (s : String)
  | vnone
  | vempty
  | vdict (d : List (String × Val))
  | vref (a : Nat)

/-- A Python dict with string keys, as an association list in insertion
order with unique keys. -/
abbrev Dict := List (String × Val)

/-- Dict lookup: `d[k]` / `k in d`. -/
def dget (d : Dict) (k : String) : Option Val :=
  (d.find? (fun kv => kv.1 == k)).map (·.2)

/-- Dict removal of a key (all its bindings). -/
def dremove (d : Dict) (k : String) : Dict :=
  d.filter (fun kv => kv.1 != k)

/-- Dict update `d[k] = x`: overwrite in place if present (keys are
unique, so matching the first occurrence is Python's behaviour), else
append. -/
def dset (d : Dict) (k : String) (x : Val) : Dict :=
  match d with
  | [] => [(k, x)]
  | kv :: rest => if kv.1 == k then (k, x) :: rest else kv :: dset rest k x

/-- Python `d.pop(k)`: value plus remaining dict, or `KeyError`. -/
def dpop (d : Dict) (k : String) : Except PyErr (Val × Dict) :=
  match dget d k with
  | some v => .ok (v, dremove d k)
  | none => .error (.keyError k)

/-- Python `int(v)`: ints pass through, strings are parsed (`ValueError`
on failure), anything else raises `TypeError`. -/
def pyInt : Val → Except PyErr Int
  | .vint n => .ok n
  | .vstr s =>
      match s.toInt? with
      | some n => .ok n
      | none => .error .valueError
  | _ => .error .typeError

/-- A stored record as seen by the bulk updater: the integer lookup field
(`id` by default) plus the remaining attributes. -/
structure BRec where
  id : Int
  attrs : Dict

/-- Insert into the id-keyed mapping with Python dict-comprehension
semantics: an existing key keeps its position but its value is
overwritten; a new key is appended. -/
def idInsert (m : List (Int × Dict)) (k : Int) (d : Dict) : List (Int × Dict) :=
  match m with
  | [] => [(k, d)]
  | kv :: rest =>
      if kv.1 = k then (k, d) :: rest else kv :: idInsert rest k d

/-- Lookup in the id-keyed mapping (`all_validated_data_by_id.get`). -/
def lookupM (m : List (Int × Dict)) (k : Int) : Option Dict :=
  (m.find? (fun kv => kv.1 == k)).map (·.2)

/-- Keys of the id-keyed mapping. -/
def keysOf (m : List (Int × Dict)) : List Int :=
  m.map Prod.fst

/-- The dict comprehension
`{int(i.pop(id_attr)): i for i in all_validated_data}` of
`BulkListSerializer.update`, processing payloads left to right with an
accumulator. -/
def buildGo (idAttr : String) (acc : List (Int × Dict)) :
    List Dict → Except PyErr (List (Int × Dict))
  | [] => .ok acc
  | i :: rest =>
      match dpop i idAttr with
      | .error e => .error e
      | .ok (v, i') =>
          match pyInt v with
          | .error e => .error e
          | .ok n => buildGo idAttr (idInsert acc n i') rest

/-- `all_validated_data_by_id` of `BulkListSerializer.update`. -/
def buildById (idAttr : String) (ps : List Dict) : Except PyErr (List (Int × Dict)) :=
  buildGo idAttr [] ps

/-- Identifier extraction from a single payload (`int(i.pop(id_attr))`,
without the removal). -/
def extractId (idAttr : String) (i : Dict) : Except PyErr Int :=
  match dget i idAttr with
  | none => .error (.keyError idAttr)
  | some v => pyInt v

/-- Identifier extraction over a whole batch, failing at the first bad
payload. -/
def extractIds (idAttr : String) : List Dict → Except PyErr (List Int)
  | [] => .ok []
  | i :: rest =>
      match extractId idAttr i with
      | .error e => .error e
      | .ok n =>
          match extractIds idAttr rest with
          | .error e => .error e
          | .ok ns => .ok (n :: ns)

/-- The update loop of `BulkListSerializer.update`: for each object the
queryset yields, look up its payload by id, run the single-record updater
`self.child.update`, record the result, and write the mutated record back
into the store. -/
def updLoop (cu : BRec → Option Dict → BRec) (m : List (Int × Dict)) :
    List BRec → List BRec → List BRec × List BRec
  | [], store => (store, [])
  | obj :: rest, store =>
      let u := cu obj (lookupM m obj.id)
      let store' := store.map (fun r => if r.id = obj.id then u else r)
      let res := updLoop cu m rest store'
      (res.1, u :: res.2)

/-- `BulkListSerializer.update(queryset, all_validated_data)`.  `cu` is
the single-record updater `self.child.update`; the first component of the
result is the store after the call (records mutated by `cu`), the second
the returned list or the raised exception.  The queryset is the store
itself; `queryset.filter(id__in=...)` keeps store records whose id is
among the extracted keys, in store order; the count check compares the
number of distinct extracted ids with the filtered count before the loop
runs. -/
def bulkUpdate (cu : BRec → Option Dict → BRec) (idAttr : String)
    (store : List BRec) (ps : List Dict) :
    List BRec × Except PyErr (List BRec) :=
  match buildById idAttr ps with
  | .error e => (store, .error e)
  | .ok m =>
      let objs := store.filter (fun r => decide (r.id ∈ keysOf m))
      if m.length ≠ objs.length then
        (store, .error (.validationError "Could not find all objects to update."))
      else
        let res := updLoop cu m objs store
        (res.1, .ok res.2)

/-- Classification of the mapping-building failures of
`BulkListSerializer.update`: `KeyError`, `ValueError` or `TypeError`
(never a `ValidationError`). -/
def PyErr.isUncaughtKind : PyErr → Bool
  | .keyError _ => true
  | .valueError => true
  | .typeError => true
  | _ => false

/-- True when a bulk call failed with an uncaught mapping-building error. -/
def buildFailed (res : List BRec × Except PyErr (List BRec)) : Bool :=
  match res.2 with
  | .error e => e.isUncaughtKind
  | .ok _ => false

/-- A record in the object graph walked by `BaseModelSerializer.update`:
attributes plus the number of `save()` calls it has received. -/
structure RecData where
  attrs : List (String × Val)
  saves : Nat

/-- The object graph: records addressed by `Nat`, as Python objects on a
heap; `Val.vref` attribute values point at other records, making the
reference aliasing of the Python objects explicit. -/
abbrev Heap := List (Nat × RecData)

/-- Heap read. -/
def hget (h : Heap) (a : Nat) : Option RecData :=
  (h.find? (fun p => p.1 == a)).map (·.2)

/-- Heap write (addresses are unique; a no-op on an absent address). -/
def hset (h : Heap) (a : Nat) (r : RecData) : Heap :=
  match h with
  | [] => []
  | p :: rest => if p.1 == a then (a, r) :: rest else p :: hset rest a r

/-- Follow `getattr` references along a path of attribute names. -/
def resolvePath (h : Heap) (a : Nat) : List String → Option Nat
  | [] => some a
  | p :: rest =>
      match hget h a with
      | none => none
      | some r =>
          match dget r.attrs p with
          | some (.vref b) => resolvePath h b rest
          | _ => none

/-- Descend nested payload dicts along a path of keys. -/
def nestedGet (v : Dict) : List String → Option Dict
  | [] => some v
  | p :: rest =>
      match dget v p with
      | some (.vdict d) => nestedGet d rest
      | _ => none

/-- The dotted-source walk of `BaseModelSerializer.update` for one nested
field named `f`: the `while '.' in source` loop descends the payload dict
and the object graph in lockstep along `path`; at the end
`setattr(ins, field, v.pop(field)); ins.save()` writes and saves the leaf
record; on the way back out the cleanup loop over `reversed(path)`
(`if len(data[field]) == 0: del data[field]`) removes a path key whose
nested payload dict became empty.  `none` models an uncaught
`KeyError`/`AttributeError` during the descent. -/
def walkUpd (f : String) : List String → Heap → Dict → Nat →
    Option (Heap × Dict)
  | [], h, v, a =>
      match hget h a, dget v f with
      | some r, some val =>
          some (hset h a ⟨dset r.attrs f val, r.saves + 1⟩, dremove v f)
      | _, _ => none
  | p :: rest, h, v, a =>
      match dget v p, hget h a with
      | some (.vdict sub), some r =>
          match dget r.attrs p with
          | some (.vref b) =>
              match walkUpd f rest h sub b with
              | none => none
              | some (h', sub') =>
                  some (h', if sub'.isEmpty then dremove v p
                            else dset v p (.vdict sub'))
          | _ => none
      | _, _ => none

/-- Per-field body of `BaseModelSerializer.update` for a nested field `f`
whose dotted source has atoms `src`: guarded by `if field in
validated_data` (top level, by field name); the `while` loop consumes
every atom but the last (it runs while a dot remains), so the final
source atom is never used — the leaf assignment and pop use the field
name `f`. -/
def updNestedField (f : String) (src : List String) (h : Heap) (a : Nat)
    (v : Dict) : Option (Heap × Dict) :=
  if (dget v f).isSome then walkUpd f src.dropLast h v a
  else some (h, v)

/-- `BaseModelSerializer.update` for one nested field, then the
delegation `return super().update(instance, validated_data)`; `su` is the
framework's standard update, an external collaborator receiving the
instance and the remaining (mutated) payload. -/
def baseModelUpdate (su : Heap → Nat → Dict → Heap) (f : String)
    (src : List String) (h : Heap) (a : Nat) (v : Dict) : Option Heap :=
  match updNestedField f src h a v with
  | none => none
  | some (h', v') => some (su h' a v')

/-- No empty nested payload dict survives along `path`, and the leaf key
`f` is gone: the shape of the payload left behind by the walk's cleanup. -/
def pathClean (f : String) : List String → Dict → Prop
  | [], v => dget v f = none
  | p :: rest, v =>
      dget v p = none ∨
        ∃ d, dget v p = some (.vdict d) ∧ d ≠ [] ∧ pathClean f rest d

/-- Where a serializer instance sits: at the root (`not self.parent`), as
the child of a list serializer (bulk or not, with or without a
grandparent), or nested under another serializer. -/
inductive ParentCtx where
  | root
  | listP (isBulk : Bool) (hasGp : Bool)
  | serP

/-- `not self.parent or (isinstance(self.parent, ListSerializer) and not
self.parent.parent)`. -/
def isRootOrTop : ParentCtx → Bool
  | .root => true
  | .listP _ gp => !gp
  | .serP => false

/-- `isinstance(self.parent, BulkListSerializer)`. -/
def isBulkParent : ParentCtx → Bool
  | .listP b _ => b
  | _ => false

/-- Result of `to_internal_value`: either a fetched/saved record or a
validated payload mapping. -/
inductive TIVRes where
  | record (r : BRec)
  | payload (d : Dict)

/-- `Model.objects.get(**{id_attr: value})`: coerce the value to the
integer lookup key, then require exactly one matching record
(`DoesNotExist` / `MultipleObjectsReturned` otherwise). -/
def objectsGet (store : List BRec) (v : Val) : Except PyErr BRec :=
  match pyInt v with
  | .error e => .error e
  | .ok n =>
      match store.filter (fun r => r.id == n) with
      | [] => .error .doesNotExist
      | [r] => .ok r
      | _ :: _ :: _ => .error .multipleObjects

/-- `BaseModelSerializer.to_internal_value` of `serializers.py` (plain
variant).  `validate` is the framework's standard field validation
(`super().to_internal_value`), an external collaborator; `method` is
`self.context['view'].request.method` (the view is assumed present). -/
def toInternalValue (ctx : ParentCtx) (method : String) (idAttr : String)
    (validate : Dict → Dict) (store : List BRec) (data : Dict) :
    Except PyErr TIVRes :=
  if isRootOrTop ctx then
    let ret := validate data
    let ret :=
      if isBulkParent ctx && (idAttr != "") &&
          (method == "PUT" || method == "PATCH") then
        dset ret idAttr ((dget data idAttr).getD .vempty)
      else ret
    .ok (.payload ret)
  else
    match dget data idAttr with
    | some v =>
        match objectsGet store v with
        | .error e => .error e
        | .ok r => .ok (.record r)
    | none => .ok (.payload (validate data))

/-- `BaseModelSerializer.to_internal_value` of
`restframework_sassan/serializers.py` (extended variant): a nested call
with the identifier present fetches the record and hands it to a nested
serializer of the same type in partial mode (`psave`, the collaborator
standing for `serializer.is_valid(raise_exception=True)` followed by
`serializer.save()` against the fetched instance); a nested call without
the identifier validates and saves a fresh record (`fsave`); the
context/request access is wrapped in `try/except BaseException`, so
`method` is `none` when that access fails. -/
def toInternalValueExt (ctx : ParentCtx) (method : Option String)
    (idAttr : String) (validate : Dict → Dict) (store : List BRec)
    (psave : BRec → Dict → Except PyErr BRec)
    (fsave : Dict → Except PyErr BRec) (data : Dict) :
    Except PyErr TIVRes :=
  if isRootOrTop ctx then
    let ret := validate data
    let ret :=
      if isBulkParent ctx && (idAttr != "") &&
          (method == some "PUT" || method == some "PATCH") then
        dset ret idAttr ((dget data idAttr).getD .vempty)
      else ret
    .ok (.payload ret)
  else
    match dget data idAttr with
    | some v =>
        match objectsGet store v with
        | .error e => .error e
        | .ok r =>
            match psave r data with
            | .error e => .error e
            | .ok r' => .ok (.record r')
    | none =>
        match fsave data with
        | .error e => .error e
        | .ok r' => .ok (.record r')

/-- `BaseModelSerializer.__init__` (both variants): the code calls
`super().__init__(*args, **kwargs)` BEFORE `kwargs.pop('fields', None)`;
the framework's `BaseSerializer.__init__` forwards unknown keyword
arguments to `Field.__init__`, whose fixed signature has no `fields`
parameter, so a passed `fields` option raises `TypeError` inside the
super call and the filtering loop below it never runs.  Only with the
option absent does construction succeed, leaving the field set
unchanged. -/
def initFields (allFields : List String) (fieldsOpt : Option String) :
    Except PyErr (List String) :=
  match fieldsOpt with
  | none => .ok allFields
  | some _ => .error .typeError

/-- Comma splitting with Python `s.split(',')` semantics, structurally
recursive over the characters (the accumulator holds the current segment
reversed). -/
def splitCommaGo : List Char → List Char → List String
  | [], acc => [String.mk acc.reverse]
  | c :: rest, acc =>
      if c = ',' then String.mk acc.reverse :: splitCommaGo rest []
      else splitCommaGo rest (c :: acc)

/-- Python `s.split(',')`. -/
def splitComma (s : String) : List String :=
  splitCommaGo s.data []

/-- Modelled from the spec: the intended field filtering that the
constructor's (unreachable) loop was meant to implement — "any field not
in the list is removed from the active field set; unspecified list means
no filtering" (the framework's documented pattern pops the option before
calling super, which this code does not). -/
def specFieldFilter (allFields : List String) (fieldsOpt : Option String) :
    List String :=
  match fieldsOpt with
  | none => allFields
  | some s =>
      if s = "" then allFields
      else allFields.filter (fun f => decide (f ∈ splitComma s))

/-- Representation over the active field set: each surviving field paired
with its value from the record's attributes. -/
def represent (fields : List String) (r : Dict) : Dict :=
  fields.filterMap (fun f => (dget r f).map (fun x => (f, x)))

/-- Trace events of `BaseModelSerializer.create`: the store-create call
with the scalar payload, each plural attachment, the final `save()`. -/
inductive Ev where
  | created (d : Dict)
  | attached (f : String) (x : Val)
  | saved

/-- The field partition loop of `BaseModelSerializer.create`: walk
`self.fields` in order; a field present in the payload goes to the
many-to-many dict when it is backed by a `ListSerializer` or
`ManyRelatedField` (its `Bool` is true), otherwise to the scalar dict. -/
def createPartition (fields : List (String × Bool)) (validated : Dict) :
    Dict × Dict :=
  fields.foldl
    (fun acc fb =>
      match dget validated fb.1 with
      | none => acc
      | some x =>
          if fb.2 then (acc.1, dset acc.2 fb.1 x)
          else (dset acc.1 fb.1 x, acc.2))
    ([], [])

/-- Declarative scalar projection: the non-plural fields present in the
payload, with their values, in field order. -/
def scalarProj (fields : List (String × Bool)) (validated : Dict) : Dict :=
  fields.filterMap (fun fb =>
    if fb.2 then none
    else (dget validated fb.1).map (fun x => (fb.1, x)))

/-- Declarative plural projection: the plural fields present in the
payload, in field order. -/
def pluralProj (fields : List (String × Bool)) (validated : Dict) : Dict :=
  fields.filterMap (fun fb =>
    if fb.2 then (dget validated fb.1).map (fun x => (fb.1, x))
    else none)

/-- `BaseModelSerializer.create`: partition the validated fields, call
`objects.create(**data)` (the collaborator `createRec`, which may fail),
attach each plural field to the created instance, `instance.save()`; the
result is the event trace. -/
def baseCreate (fields : List (String × Bool))
    (createRec : Dict → Except PyErr Unit) (validated : Dict) :
    Except PyErr (List Ev) :=
  let part := createPartition fields validated
  match createRec part.1 with
  | .error e => .error e
  | .ok _ =>
      .ok (Ev.created part.1 ::
        (part.2.map (fun fx => Ev.attached fx.1 fx.2) ++ [Ev.saved]))

example :
    buildById "id" [[("id", .vint 3), ("n", .vstr "a")]] = .ok [(3, [("n", .vstr "a")])] := by
  rfl

example :
    bulkUpdate (fun r _ => r) "id" [⟨1, []⟩] [[("id", .vint 1)], [("id", .vint 2)]] =
      ([⟨1, []⟩], .error (.validationError "Could not find all objects to update.")) := by
  rfl

theorem dget_dremove_self (d : Dict) (k : String) : dget (dremove d k) k = none := by
  induction d with
  | nil => rfl
  | cons kv rest ih =>
      by_cases h : kv.1 = k
      · simp [dremove, dget, h, List.filter_cons]
      · simp only [dremove, List.filter_cons] at ih ⊢
        simp [h, dget, List.find?_cons, ih, dremove]

theorem lookupM_idInsert (m : List (Int × Dict)) (n : Int) (d : Dict) (k : Int) :
    lookupM (idInsert m n d) k = if k = n then some d else lookupM m k := by
  induction m with
  | nil =>
      by_cases h : k = n
      · simp [idInsert, lookupM, h]
      · have hne : (n == k) = false := beq_eq_false_iff_ne.mpr (Ne.symm h)
        simp [idInsert, lookupM, hne, h]
  | cons kv rest ih =>
      by_cases h1 : kv.1 = n
      · by_cases h2 : k = n
        · simp [idInsert, h1, lookupM, h2]
        · have hne : (n == k) = false := beq_eq_false_iff_ne.mpr (Ne.symm h2)
          have hne2 : (kv.1 == k) = false := by rw [h1]; exact hne
          simp [idInsert, h1, lookupM, hne, hne2, h2]
      · simp only [idInsert, if_neg h1]
        by_cases h3 : kv.1 = k
        · have hb : (kv.1 == k) = true := beq_iff_eq.mpr h3
          have h2 : ¬ k = n := by
            intro hkn
            exact h1 (h3.trans hkn)
          simp [lookupM, List.find?_cons, hb, h2]
        · have hb : (kv.1 == k) = false := by
            simp [h3]
          simp [lookupM, List.find?_cons, hb] at ih ⊢
          exact ih

theorem keysOf_idInsert (m : List (Int × Dict)) (n : Int) (d : Dict) :
    keysOf (idInsert m n d) =
      if n ∈ keysOf m then keysOf m else keysOf m ++ [n] := by
  induction m with
  | nil => simp [idInsert, keysOf]
  | cons kv rest ih =>
      by_cases h : kv.1 = n
      · simp [idInsert, keysOf, h]
      · simp only [idInsert, if_neg h, keysOf, List.map_cons] at ih ⊢
        have hne : ¬ n = kv.1 := fun hc => h hc.symm
        rw [ih]
        by_cases h2 : n ∈ List.map Prod.fst rest <;> simp [h2, hne]

theorem pyInt_err (v : Val) (e : PyErr) (h : pyInt v = .error e) :
    e = .valueError ∨ e = .typeError := by
  cases v with
  | vint n => simp [pyInt] at h
  | vstr s =>
      simp only [pyInt] at h
      split at h
      next => simp at h
      next =>
        rw [Except.error.injEq] at h
        exact Or.inl h.symm
  | vnone => simp [pyInt] at h; exact Or.inr h.symm
  | vempty => simp [pyInt] at h; exact Or.inr h.symm
  | vdict d => simp [pyInt] at h; exact Or.inr h.symm
  | vref a => simp [pyInt] at h; exact Or.inr h.symm

theorem dpop_err_extract (idAttr : String) (i : Dict) (e : PyErr)
    (h : dpop i idAttr = .error e) : extractId idAttr i = .error e := by
  unfold dpop at h
  unfold extractId
  cases hg : dget i idAttr <;> rw [hg] at h <;> simp at h
  rw [← h]

theorem dpop_ok_extract (idAttr : String) (i : Dict) (v : Val) (i' : Dict)
    (h : dpop i idAttr = .ok (v, i')) :
    i' = dremove i idAttr ∧ extractId idAttr i = pyInt v := by
  unfold dpop at h
  unfold extractId
  cases hg : dget i idAttr <;> rw [hg] at h <;> simp at h
  exact ⟨h.2.symm, by rw [h.1]⟩

theorem extract_dpop (idAttr : String) (i : Dict) (n : Int)
    (h : extractId idAttr i = .ok n) :
    ∃ v, dpop i idAttr = .ok (v, dremove i idAttr) ∧ pyInt v = .ok n := by
  unfold extractId at h
  cases hg : dget i idAttr with
  | none => rw [hg] at h; simp at h
  | some v => rw [hg] at h; exact ⟨v, by simp [dpop, hg], h⟩

theorem buildGo_err (idAttr : String) (ps : List Dict) :
    ∀ acc e, buildGo idAttr acc ps = .error e →
      (∃ k, e = .keyError k) ∨ e = .valueError ∨ e = .typeError := by
  induction ps with
  | nil =>
      intro acc e h
      simp [buildGo] at h
  | cons i rest ih =>
      intro acc e h
      simp only [buildGo] at h
      split at h
      next e0 hp =>
        rw [Except.error.injEq] at h
        subst h
        unfold dpop at hp
        split at hp
        next v hg => simp at hp
        next hg =>
          rw [Except.error.injEq] at hp
          exact Or.inl ⟨idAttr, hp.symm⟩
      next v i' hp =>
        split at h
        next e1 hn =>
          rw [Except.error.injEq] at h
          subst h
          exact Or.inr (pyInt_err _ _ hn)
        next n hn =>
          exact ih _ _ h

theorem idInsert_mem (m : List (Int × Dict)) (n : Int) (d : Dict) (kv : Int × Dict)
    (h : kv ∈ idInsert m n d) : kv ∈ m ∨ kv = (n, d) := by
  induction m with
  | nil =>
      simp [idInsert] at h
      exact Or.inr h
  | cons kv0 rest ih =>
      unfold idInsert at h
      by_cases h0 : kv0.1 = n
      · rw [if_pos h0] at h
        rcases List.mem_cons.mp h with h1 | h1
        · exact Or.inr h1
        · exact Or.inl (List.mem_cons_of_mem _ h1)
      · rw [if_neg h0] at h
        rcases List.mem_cons.mp h with h1 | h1
        · exact Or.inl (by rw [h1]; exact List.mem_cons_self _ _)
        · rcases ih h1 with h2 | h2
          · exact Or.inl (List.mem_cons_of_mem _ h2)
          · exact Or.inr h2

theorem buildGo_popped (idAttr : String) (ps : List Dict) :
    ∀ acc m, (∀ kv ∈ acc, dget kv.2 idAttr = none) →
      buildGo idAttr acc ps = .ok m →
      ∀ kv ∈ m, dget kv.2 idAttr = none := by
  induction ps with
  | nil =>
      intro acc m hacc h
      simp [buildGo] at h
      exact h ▸ hacc
  | cons i rest ih =>
      intro acc m hacc h
      simp only [buildGo] at h
      split at h
      next e0 hp => simp at h
      next v i' hp =>
        split at h
        next e1 hn => simp at h
        next n hn =>
          refine ih _ _ ?_ h
          intro kv hkv
          rcases idInsert_mem _ _ _ _ hkv with h1 | h1
          · exact hacc kv h1
          · rw [h1, (dpop_ok_extract idAttr i v i' hp).1]
            exact dget_dremove_self i idAttr

theorem buildGo_keys_mem (idAttr : String) (ps : List Dict) :
    ∀ acc m ids, buildGo idAttr acc ps = .ok m → extractIds idAttr ps = .ok ids →
      ∀ k, k ∈ keysOf m ↔ k ∈ keysOf acc ∨ k ∈ ids := by
  induction ps with
  | nil =>
      intro acc m ids h hx k
      simp [buildGo] at h
      simp [extractIds] at hx
      subst h
      subst hx
      simp
  | cons i rest ih =>
      intro acc m ids h hx k
      simp only [buildGo] at h
      split at h
      next e0 hp => simp at h
      next v i' hp =>
        split at h
        next e1 hn => simp at h
        next n hn =>
          have hxi : extractId idAttr i = .ok n := by
            rw [(dpop_ok_extract idAttr i v i' hp).2, hn]
          simp only [extractIds, hxi] at hx
          split at hx
          next e2 hr => simp at hx
          next ns hr =>
            rw [Except.ok.injEq] at hx
            subst hx
            rw [ih _ _ _ h hr k, keysOf_idInsert]
            by_cases hmem : n ∈ keysOf acc
            · simp only [if_pos hmem, List.mem_cons]
              constructor
              · rintro (h1 | h1)
                · exact Or.inl h1
                · exact Or.inr (Or.inr h1)
              · rintro (h1 | h1 | h1)
                · exact Or.inl h1
                · exact Or.inl (h1 ▸ hmem)
                · exact Or.inr h1
            · simp only [if_neg hmem, List.mem_append, List.mem_cons,
                List.mem_singleton]
              tauto

theorem buildGo_nodup (idAttr : String) (ps : List Dict) :
    ∀ acc m, (keysOf acc).Nodup → buildGo idAttr acc ps = .ok m →
      (keysOf m).Nodup := by
  induction ps with
  | nil =>
      intro acc m hacc h
      simp [buildGo] at h
      exact h ▸ hacc
  | cons i rest ih =>
      intro acc m hacc h
      simp only [buildGo] at h
      split at h
      next e0 hp => simp at h
      next v i' hp =>
        split at h
        next e1 hn => simp at h
        next n hn =>
          refine ih _ _ ?_ h
          rw [keysOf_idInsert]
          by_cases hmem : n ∈ keysOf acc
          · simpa [hmem] using hacc
          · simp [hmem, List.nodup_append, hacc]

theorem buildGo_fresh (idAttr : String) (ps : List Dict) :
    ∀ acc ids, extractIds idAttr ps = .ok ids → ids.Nodup →
      (∀ k ∈ ids, k ∉ keysOf acc) →
      ∃ m, buildGo idAttr acc ps = .ok m ∧ keysOf m = keysOf acc ++ ids := by
  induction ps with
  | nil =>
      intro acc ids hx _ _
      simp [extractIds] at hx
      subst hx
      exact ⟨acc, rfl, by simp⟩
  | cons i rest ih =>
      intro acc ids hx hnd hfresh
      simp only [extractIds] at hx
      split at hx
      next e0 hp => simp at hx
      next n hp =>
        split at hx
        next e1 hr => simp at hx
        next ns hr =>
          rw [Except.ok.injEq] at hx
          subst hx
          obtain ⟨v, hdpop, hpy⟩ := extract_dpop idAttr i n hp
          have hstep :
              buildGo idAttr acc (i :: rest) =
                buildGo idAttr (idInsert acc n (dremove i idAttr)) rest := by
            simp [buildGo, hdpop, hpy]
          have hfreshn : n ∉ keysOf acc := hfresh n (List.mem_cons_self _ _)
          have hkeys : keysOf (idInsert acc n (dremove i idAttr)) =
              keysOf acc ++ [n] := by
            rw [keysOf_idInsert, if_neg hfreshn]
          obtain ⟨m, hm, hmk⟩ := ih (idInsert acc n (dremove i idAttr)) ns hr
            (List.Nodup.of_cons hnd)
            (by
              intro k hk
              rw [hkeys]
              simp only [List.mem_append, List.mem_singleton]
              rintro (h1 | h1)
              · exact hfresh k (List.mem_cons_of_mem _ hk) h1
              · rw [h1] at hk
                exact (List.nodup_cons.mp hnd).1 hk)
          refine ⟨m, by rw [hstep]; exact hm, ?_⟩
          rw [hmk, hkeys]
          simp

theorem buildGo_ok_of_extract (idAttr : String) (ps : List Dict) :
    ∀ acc ids, extractIds idAttr ps = .ok ids →
      ∃ m, buildGo idAttr acc ps = .ok m := by
  induction ps with
  | nil =>
      intro acc ids _
      exact ⟨acc, rfl⟩
  | cons i rest ih =>
      intro acc ids hx
      simp only [extractIds] at hx
      split at hx
      next e0 hp => simp at hx
      next n hp =>
        split at hx
        next e1 hr => simp at hx
        next ns hr =>
          obtain ⟨v, hdpop, hpy⟩ := extract_dpop idAttr i n hp
          obtain ⟨m, hm⟩ := ih (idInsert acc n (dremove i idAttr)) ns hr
          exact ⟨m, by simp [buildGo, hdpop, hpy]; exact hm⟩

theorem extractIds_length (idAttr : String) (ps : List Dict) :
    ∀ ids, extractIds idAttr ps = .ok ids → ids.length = ps.length := by
  induction ps with
  | nil =>
      intro ids hx
      simp [extractIds] at hx
      subst hx
      rfl
  | cons i rest ih =>
      intro ids hx
      simp only [extractIds] at hx
      split at hx
      next e0 hp => simp at hx
      next n hp =>
        split at hx
        next e1 hr => simp at hx
        next ns hr =>
          rw [Except.ok.injEq] at hx
          subst hx
          simp [ih ns hr]

theorem updLoop_snd (cu : BRec → Option Dict → BRec) (m : List (Int × Dict))
    (objs : List BRec) :
    ∀ store, (updLoop cu m objs store).2 =
      objs.map (fun o => cu o (lookupM m o.id)) := by
  induction objs with
  | nil => intro store; rfl
  | cons o rest ih =>
      intro store
      simp [updLoop, ih]

theorem buildGo_lastwins (idAttr : String) (ps : List Dict) :
    ∀ acc m, buildGo idAttr acc ps = .ok m →
      ∀ k, lookupM m k =
        ((ps.reverse.find? (fun i => decide (extractId idAttr i = .ok k))).map
          (fun i => dremove i idAttr)).orElse (fun _ => lookupM acc k) := by
  induction ps with
  | nil =>
      intro acc m h k
      simp [buildGo] at h
      subst h
      simp
  | cons i rest ih =>
      intro acc m h k
      simp only [buildGo] at h
      split at h
      next e0 hp => simp at h
      next v i' hp =>
        split at h
        next e1 hn => simp at h
        next n hn =>
          have hxi : extractId idAttr i = .ok n := by
            rw [(dpop_ok_extract idAttr i v i' hp).2, hn]
          have hi' : i' = dremove i idAttr := (dpop_ok_extract idAttr i v i' hp).1
          rw [ih _ _ h k, List.reverse_cons, List.find?_append]
          cases hf : rest.reverse.find? (fun i => decide (extractId idAttr i = .ok k)) with
          | some j => simp [hf]
          | none =>
              by_cases hk : k = n
              · subst hk
                simp [hf, List.find?_cons, hxi, lookupM_idInsert, hi']
              · have hne : ¬ extractId idAttr i = Except.ok k := by
                  rw [hxi]
                  simp only [Except.ok.injEq]
                  omega
                simp [hf, List.find?_cons, hne, lookupM_idInsert, hk]

theorem store_filter_len (store : List BRec) (K : List Int) :
    (store.filter (fun r => decide (r.id ∈ K))).length
      = ((store.map BRec.id).filter (fun x => decide (x ∈ K))).length := by
  induction store with
  | nil => rfl
  | cons r rest ih =>
      by_cases h : r.id ∈ K <;> simp [List.filter_cons, h, ih]

theorem filter_len_lt (S K : List Int) (k : Int) (hS : S.Nodup) (hK : K.Nodup)
    (hk : k ∈ K) (hkS : k ∉ S) :
    (S.filter (fun x => decide (x ∈ K))).length < K.length := by
  classical
  have hA : (S.filter (fun x => decide (x ∈ K))).Nodup := hS.filter _
  have hsub : (S.filter (fun x => decide (x ∈ K))).toFinset ⊆
      K.toFinset.erase k := by
    intro x hx
    simp only [List.mem_toFinset, List.mem_filter, decide_eq_true_eq] at hx
    have hxk : x ≠ k := fun h => hkS (h ▸ hx.1)
    simp [Finset.mem_erase, hxk, List.mem_toFinset, hx.2]
  have h1 : (S.filter (fun x => decide (x ∈ K))).length =
      (S.filter (fun x => decide (x ∈ K))).toFinset.card :=
    (List.toFinset_card_of_nodup hA).symm
  have h2 : (K.toFinset.erase k).card = K.toFinset.card - 1 :=
    Finset.card_erase_of_mem (List.mem_toFinset.mpr hk)
  have h3 : K.toFinset.card = K.length := List.toFinset_card_of_nodup hK
  have h4 : 0 < K.toFinset.card :=
    Finset.card_pos.mpr ⟨k, List.mem_toFinset.mpr hk⟩
  have h5 := Finset.card_le_card hsub
  omega

theorem filter_len_eq (S K : List Int) (hS : S.Nodup) (hK : K.Nodup)
    (hsub : ∀ x ∈ K, x ∈ S) :
    (S.filter (fun x => decide (x ∈ K))).length = K.length := by
  classical
  have hA : (S.filter (fun x => decide (x ∈ K))).Nodup := hS.filter _
  have hfe : (S.filter (fun x => decide (x ∈ K))).toFinset = K.toFinset := by
    ext x
    simp only [List.mem_toFinset, List.mem_filter, decide_eq_true_eq]
    constructor
    · exact fun h => h.2
    · exact fun h => ⟨hsub x h, h⟩
  have h1 := List.toFinset_card_of_nodup hA
  have h2 := List.toFinset_card_of_nodup hK
  rw [← h1, hfe, h2]

theorem buildGo_err_of_bad (idAttr : String) (ps : List Dict) :
    ∀ acc, (∃ i ∈ ps, ∃ e0, extractId idAttr i = .error e0) →
      ∃ e, buildGo idAttr acc ps = .error e := by
  induction ps with
  | nil =>
      intro acc h
      rcases h with ⟨i, hi, _⟩
      simp at hi
  | cons i rest ih =>
      intro acc h
      cases hx : extractId idAttr i with
      | error e0 =>
          unfold extractId at hx
          cases hg : dget i idAttr with
          | none =>
              exact ⟨.keyError idAttr, by simp [buildGo, dpop, hg]⟩
          | some v =>
              rw [hg] at hx
              have hx' : pyInt v = .error e0 := hx
              exact ⟨e0, by simp [buildGo, dpop, hg, hx']⟩
      | ok n =>
          obtain ⟨v, hdpop, hpy⟩ := extract_dpop idAttr i n hx
          rcases h with ⟨j, hj, e0, hbadj⟩
          rcases List.mem_cons.mp hj with rfl | hj'
          · rw [hx] at hbadj
            simp at hbadj
          · obtain ⟨e, he⟩ := ih (idInsert acc n (dremove i idAttr))
              ⟨j, hj', e0, hbadj⟩
            refine ⟨e, ?_⟩
            simp only [buildGo, hdpop, hpy]
            exact he

/-- C1: for a batch whose identifier extraction succeeds but names at
least one identifier matching no record of the store (store ids being
unique), `BulkListSerializer.update` raises
`ValidationError('Could not find all objects to update.')`, the store is
returned unchanged, and the outcome is the same for every single-record
updater — the updater is never invoked, since the count check runs
strictly before the update loop. -/
theorem C1_bulk_unknown_id_rejects_before_update
    (cu : BRec → Option Dict → BRec)
    (idAttr : String) (store : List BRec) (ps : List Dict)
    (m : List (Int × Dict)) (k : Int)
    (hbuild : buildById idAttr ps = .ok m)
    (hstore : (store.map BRec.id).Nodup)
    (hk : k ∈ keysOf m)
    (hmiss : k ∉ store.map BRec.id) :
    bulkUpdate cu idAttr store ps =
      (store, .error (.validationError "Could not find all objects to update.")) := by
  have hknodup : (keysOf m).Nodup :=
    buildGo_nodup idAttr ps [] m (by simp [keysOf]) hbuild
  have hlt : ((store.map BRec.id).filter
      (fun x => decide (x ∈ keysOf m))).length < (keysOf m).length :=
    filter_len_lt _ _ k hstore hknodup hk hmiss
  have hlen : m.length = (keysOf m).length := by simp [keysOf]
  have hne : m.length ≠
      (store.filter (fun r => decide (r.id ∈ keysOf m))).length := by
    rw [store_filter_len, hlen]
    omega
  unfold bulkUpdate
  rw [hbuild]
  simp only [if_pos hne]

/-- C2: for a well-formed batch — identifier extraction succeeds, the
extracted identifiers are pairwise distinct and each matches a record of
the store, whose ids are unique — `BulkListSerializer.update` returns
exactly one updated record per input payload; the returned list is the
store-order filter of the store (the order the queryset yields records,
not input-payload order) mapped through the single-record updater, and
every payload handed to the updater has had its identifier key removed. -/
theorem C2_bulk_wellformed_updates_in_store_order
    (cu : BRec → Option Dict → BRec) (idAttr : String)
    (store : List BRec) (ps : List Dict) (ids : List Int)
    (m : List (Int × Dict))
    (hbuild : buildById idAttr ps = .ok m)
    (hx : extractIds idAttr ps = .ok ids)
    (hnd : ids.Nodup)
    (hsub : ∀ n ∈ ids, n ∈ store.map BRec.id)
    (hstore : (store.map BRec.id).Nodup) :
    keysOf m = ids ∧
    (bulkUpdate cu idAttr store ps).2 =
      .ok ((store.filter (fun r => decide (r.id ∈ ids))).map
        (fun o => cu o (lookupM m o.id))) ∧
    ((store.filter (fun r => decide (r.id ∈ ids))).map
      (fun o => cu o (lookupM m o.id))).length = ps.length ∧
    (∀ kv ∈ m, dget kv.2 idAttr = none) := by
  obtain ⟨m', hm', hmk⟩ := buildGo_fresh idAttr ps [] ids hx hnd (by simp [keysOf])
  have hmm : m' = m := by
    have := hm'.symm.trans hbuild
    exact Except.ok.inj this
  subst hmm
  have hmk' : keysOf m' = ids := by simpa [keysOf] using hmk
  subst hmk'
  have hmlen : m'.length = (keysOf m').length := by simp [keysOf]
  have hfeq : ((store.map BRec.id).filter
      (fun x => decide (x ∈ keysOf m'))).length = (keysOf m').length :=
    filter_len_eq _ _ hstore hnd hsub
  have hlen_eq : m'.length =
      (store.filter (fun r => decide (r.id ∈ keysOf m'))).length := by
    rw [store_filter_len, hfeq, hmlen]
  refine ⟨rfl, ?_, ?_, ?_⟩
  · unfold bulkUpdate
    rw [hbuild]
    have hcond : ¬ (m'.length ≠
        (store.filter (fun r => decide (r.id ∈ keysOf m'))).length) := by omega
    simp only [if_neg hcond]
    exact congrArg Except.ok (updLoop_snd cu m' _ store)
  · rw [List.length_map, ← hlen_eq, hmlen, extractIds_length idAttr ps _ hx]
  · exact buildGo_popped idAttr ps [] m' (by simp) hm'

/-- C9: when the batch contains duplicate identifiers, the id-to-payload
mapping keeps only the last payload per identifier (earlier duplicates
are silently discarded), the count check compares the number of distinct
identifiers — not the number of input payloads — with the store count, so
a duplicated batch whose identifiers all exist passes the check, and the
returned list contains exactly one updated record per distinct
identifier. -/
theorem C9_bulk_duplicate_ids_last_wins
    (cu : BRec → Option Dict → BRec) (idAttr : String)
    (store : List BRec) (ps : List Dict) (ids : List Int)
    (m : List (Int × Dict))
    (hbuild : buildById idAttr ps = .ok m)
    (hx : extractIds idAttr ps = .ok ids)
    (hsub : ∀ n ∈ ids, n ∈ store.map BRec.id)
    (hstore : (store.map BRec.id).Nodup) :
    m.length = ids.dedup.length ∧
    (∀ k, lookupM m k =
      (ps.reverse.find? (fun i => decide (extractId idAttr i = .ok k))).map
        (fun i => dremove i idAttr)) ∧
    (bulkUpdate cu idAttr store ps).2 =
      .ok ((store.filter (fun r => decide (r.id ∈ keysOf m))).map
        (fun o => cu o (lookupM m o.id))) ∧
    ((store.filter (fun r => decide (r.id ∈ keysOf m))).map
      (fun o => cu o (lookupM m o.id))).length = ids.dedup.length := by
  classical
  have hm : buildGo idAttr [] ps = .ok m := hbuild
  have hknodup : (keysOf m).Nodup :=
    buildGo_nodup idAttr ps [] m (by simp [keysOf]) hm
  have hmem : ∀ k, k ∈ keysOf m ↔ k ∈ ids := by
    intro k
    rw [buildGo_keys_mem idAttr ps [] m ids hm hx k]
    simp [keysOf]
  have hfin : (keysOf m).toFinset = ids.toFinset := by
    ext x
    simp only [List.mem_toFinset]
    exact hmem x
  have hdlen : m.length = ids.dedup.length := by
    have h1 : m.length = (keysOf m).length := by simp [keysOf]
    have h2 := List.toFinset_card_of_nodup hknodup
    rw [h1, ← h2, hfin, List.card_toFinset]
  have hlast : ∀ k, lookupM m k =
      (ps.reverse.find? (fun i => decide (extractId idAttr i = .ok k))).map
        (fun i => dremove i idAttr) := by
    intro k
    rw [buildGo_lastwins idAttr ps [] m hm k]
    cases hf : ps.reverse.find? (fun i => decide (extractId idAttr i = .ok k)) <;>
      simp [hf, lookupM]
  have hsub' : ∀ x ∈ keysOf m, x ∈ store.map BRec.id :=
    fun x hxm => hsub x ((hmem x).mp hxm)
  have hfeq : ((store.map BRec.id).filter
      (fun x => decide (x ∈ keysOf m))).length = (keysOf m).length :=
    filter_len_eq _ _ hstore hknodup hsub'
  have hlen_eq : m.length =
      (store.filter (fun r => decide (r.id ∈ keysOf m))).length := by
    rw [store_filter_len, hfeq]
    simp [keysOf]
  refine ⟨hdlen, hlast, ?_, ?_⟩
  · unfold bulkUpdate
    rw [hbuild]
    have hcond : ¬ (m.length ≠
        (store.filter (fun r => decide (r.id ∈ keysOf m))).length) := by omega
    simp only [if_neg hcond]
    exact congrArg Except.ok (updLoop_snd cu m _ store)
  · rw [List.length_map, ← hlen_eq, hdlen]

/-- C10: a batch containing a payload without the identifier key, or with
an identifier value that `int()` cannot convert, makes
`BulkListSerializer.update` raise an uncaught `KeyError`, `ValueError` or
`TypeError` while building the id-to-payload mapping — before any store
query or record write (the store is returned unchanged for every
single-record updater) — and the failure is not a `ValidationError`. -/
theorem C10_bulk_malformed_id_uncaught
    (cu : BRec → Option Dict → BRec) (idAttr : String)
    (store : List BRec) (ps : List Dict) (i : Dict) (e0 : PyErr)
    (hmem : i ∈ ps)
    (hbad : extractId idAttr i = .error e0) :
    (bulkUpdate cu idAttr store ps).1 = store ∧
    buildFailed (bulkUpdate cu idAttr store ps) = true := by
  obtain ⟨e, he⟩ := buildGo_err_of_bad idAttr ps [] ⟨i, hmem, e0, hbad⟩
  have hclass := buildGo_err idAttr ps [] e he
  have hres : bulkUpdate cu idAttr store ps = (store, .error e) := by
    unfold bulkUpdate
    rw [show buildById idAttr ps = .error e from he]
  rw [hres]
  refine ⟨rfl, ?_⟩
  rcases hclass with ⟨k, hk⟩ | hk | hk <;> subst hk <;> rfl

theorem C1_bulk_unknown_id_rejects_before_update_witness :
    bulkUpdate (fun r _ => r) "id" [⟨1, []⟩, ⟨2, []⟩]
      [[("id", Val.vint 1)], [("id", Val.vint 99)]] =
      ([⟨1, []⟩, ⟨2, []⟩],
        .error (.validationError "Could not find all objects to update.")) :=
  C1_bulk_unknown_id_rejects_before_update (fun r _ => r) "id"
    [⟨1, []⟩, ⟨2, []⟩] [[("id", Val.vint 1)], [("id", Val.vint 99)]]
    [(1, []), (99, [])] 99 (by rfl) (by decide) (by decide) (by decide)

theorem C2_bulk_wellformed_updates_in_store_order_witness :
    (bulkUpdate (fun r _ => r) "id" [⟨1, [("a", Val.vint 0)]⟩, ⟨2, []⟩]
      [[("id", Val.vint 2), ("x", Val.vint 5)], [("id", Val.vint 1)]]).2 =
      .ok [⟨1, [("a", Val.vint 0)]⟩, ⟨2, []⟩] :=
  (C2_bulk_wellformed_updates_in_store_order (fun r _ => r) "id"
    [⟨1, [("a", Val.vint 0)]⟩, ⟨2, []⟩]
    [[("id", Val.vint 2), ("x", Val.vint 5)], [("id", Val.vint 1)]]
    [2, 1] [(2, [("x", Val.vint 5)]), (1, [])]
    (by rfl) (by rfl) (by decide) (by decide) (by decide)).2.1

theorem C9_bulk_duplicate_ids_last_wins_witness :
    (bulkUpdate (fun r _ => r) "id" [⟨1, []⟩]
      [[("id", Val.vint 1), ("x", Val.vint 1)],
       [("id", Val.vint 1), ("x", Val.vint 2)]]).2 = .ok [⟨1, []⟩] :=
  (C9_bulk_duplicate_ids_last_wins (fun r _ => r) "id" [⟨1, []⟩]
    [[("id", Val.vint 1), ("x", Val.vint 1)],
     [("id", Val.vint 1), ("x", Val.vint 2)]]
    [1, 1] [(1, [("x", Val.vint 2)])]
    (by rfl) (by rfl) (by decide) (by decide)).2.2.1

theorem C10_bulk_malformed_id_uncaught_witness :
    (bulkUpdate (fun r _ => r) "id" [⟨1, []⟩] [[("x", Val.vnone)]]).1 =
      [⟨1, []⟩] ∧
    buildFailed (bulkUpdate (fun r _ => r) "id" [⟨1, []⟩]
      [[("x", Val.vnone)]]) = true :=
  C10_bulk_malformed_id_uncaught (fun r _ => r) "id" [⟨1, []⟩]
    [[("x", Val.vnone)]] [("x", Val.vnone)] (.keyError "id")
    (List.mem_cons_self _ _) (by rfl)

theorem dget_dset_self (d : Dict) (k : String) (x : Val) :
    dget (dset d k x) k = some x := by
  induction d with
  | nil => simp [dset, dget]
  | cons kv rest ih =>
      by_cases h : (kv.1 == k) = true
      · simp [dset, h, dget, List.find?_cons]
      · have hb : (kv.1 == k) = false := by
          simpa using h
        simp only [dset, hb, Bool.false_eq_true, if_false]
        simp only [dget, List.find?_cons, hb] at ih ⊢
        exact ih

theorem dset_fresh (d : Dict) (k : String) (x : Val)
    (h : k ∉ d.map Prod.fst) : dset d k x = d ++ [(k, x)] := by
  induction d with
  | nil => rfl
  | cons kv rest ih =>
      simp only [List.map_cons, List.mem_cons] at h
      push_neg at h
      have hb : (kv.1 == k) = false :=
        beq_eq_false_iff_ne.mpr (fun hc => h.1 hc.symm)
      simp [dset, hb, ih h.2]

theorem dget_none_of_not_mem (d : Dict) (k : String)
    (h : k ∉ d.map Prod.fst) : dget d k = none := by
  induction d with
  | nil => rfl
  | cons kv rest ih =>
      simp only [List.map_cons, List.mem_cons] at h
      push_neg at h
      have hb : (kv.1 == k) = false :=
        beq_eq_false_iff_ne.mpr (fun hc => h.1 hc.symm)
      simp only [dget, List.find?_cons, hb] at ih ⊢
      exact ih h.2

theorem represent_names (fields : List String) (r : Dict)
    (h : ∀ g ∈ fields, (dget r g).isSome) :
    (represent fields r).map Prod.fst = fields := by
  induction fields with
  | nil => rfl
  | cons f rest ih =>
      have hf := h f (List.mem_cons_self _ _)
      have ih' := ih (fun g hg2 => h g (List.mem_cons_of_mem _ hg2))
      cases hg : dget r f with
      | none => rw [hg] at hf; simp at hf
      | some x =>
          simp only [represent, List.filterMap_cons, hg, Option.map_some] at ih' ⊢
          simp [ih']

/-- C7: the claimed field filtering is unreachable in the code: both
variants call `super().__init__` with the `fields` kwarg still present
(the pop comes after), and the framework's `Field.__init__` rejects the
unknown keyword, so constructing with the option `"id,name"` raises
`TypeError` before any field is removed — whereas the spec's intended
behaviour (`specFieldFilter`) would keep exactly `["id", "name"]`;
leaving the option unspecified constructs successfully with the field
set unchanged, on which code and spec agree. -/
theorem C7_fields_option_raises_typeerror :
    initFields ["id", "name", "email"] (some "id,name") =
      .error .typeError ∧
    specFieldFilter ["id", "name", "email"] (some "id,name") =
      ["id", "name"] ∧
    initFields ["id", "name", "email"] none =
      .ok ["id", "name", "email"] ∧
    specFieldFilter ["id", "name", "email"] none =
      ["id", "name", "email"] :=
  ⟨rfl, by decide, rfl, rfl⟩

/-- C5: a nested (non-root, non-top-of-list) `to_internal_value` whose
input contains the identifier fetches the record by identifier from the
store and — in the plain variant — returns it directly, for every
possible standard-validation collaborator (field validation is not run);
in the extended variant the fetched record is handed to the partial-mode
nested serializer save and that saved record is returned. -/
theorem C5_nested_with_id_resolves_by_reference
    (ctx : ParentCtx) (method : String) (method2 : Option String)
    (idAttr : String) (store : List BRec) (data : Dict) (v : Val)
    (r r' : BRec) (psave : BRec → Dict → Except PyErr BRec)
    (hctx : isRootOrTop ctx = false)
    (hid : dget data idAttr = some v)
    (hobj : objectsGet store v = .ok r)
    (hps : psave r data = .ok r') :
    (∀ validate, toInternalValue ctx method idAttr validate store data =
      .ok (.record r)) ∧
    (∀ validate fsave,
      toInternalValueExt ctx method2 idAttr validate store psave fsave data =
        .ok (.record r')) := by
  constructor
  · intro validate
    simp [toInternalValue, hctx, hid, hobj]
  · intro validate fsave
    simp [toInternalValueExt, hctx, hid, hobj, hps]

theorem C5_nested_with_id_resolves_by_reference_witness :
    toInternalValue .serP "POST" "id" (fun d => d)
      [⟨7, [("n", Val.vstr "x")]⟩] [("id", Val.vint 7)] =
      .ok (.record ⟨7, [("n", Val.vstr "x")]⟩) :=
  (C5_nested_with_id_resolves_by_reference .serP "POST" none "id"
    [⟨7, [("n", Val.vstr "x")]⟩] [("id", Val.vint 7)] (.vint 7)
    ⟨7, [("n", Val.vstr "x")]⟩ ⟨7, [("n", Val.vstr "x")]⟩
    (fun r _ => .ok r) rfl rfl rfl rfl).1 (fun d => d)

/-- C6: at the root or top of a list, when the parent is a
`BulkListSerializer` and the request method is PUT or PATCH, the
validated mapping gets the identifier re-injected from the raw input
(`id_field.get_value(data)`); with any other method, or without a bulk
parent, the result is exactly the standard-validation output.  The
extended variant injects the same way and performs no injection when the
context/request access failed (`method = none`). -/
theorem C6_bulk_put_patch_reinjects_identifier
    (method : String) (idAttr : String) (validate : Dict → Dict)
    (store : List BRec) (data : Dict)
    (psave : BRec → Dict → Except PyErr BRec)
    (fsave : Dict → Except PyErr BRec)
    (hid : idAttr ≠ "") :
    ((method = "PUT" ∨ method = "PATCH") →
      toInternalValue (.listP true false) method idAttr validate store data =
        .ok (.payload (dset (validate data) idAttr
          ((dget data idAttr).getD .vempty))) ∧
      dget (dset (validate data) idAttr ((dget data idAttr).getD .vempty))
        idAttr = some ((dget data idAttr).getD .vempty) ∧
      toInternalValueExt (.listP true false) (some method) idAttr validate
          store psave fsave data =
        .ok (.payload (dset (validate data) idAttr
          ((dget data idAttr).getD .vempty)))) ∧
    (¬ (method = "PUT" ∨ method = "PATCH") →
      toInternalValue (.listP true false) method idAttr validate store data =
        .ok (.payload (validate data))) ∧
    (∀ ctx, isRootOrTop ctx = true → isBulkParent ctx = false →
      toInternalValue ctx method idAttr validate store data =
        .ok (.payload (validate data))) ∧
    toInternalValueExt (.listP true false) none idAttr validate store psave
        fsave data =
      .ok (.payload (validate data)) := by
  have hbne : (idAttr != "") = true := bne_iff_ne.mpr hid
  refine ⟨?_, ?_, ?_, ?_⟩
  · rintro (h | h) <;> subst h <;>
      exact ⟨by simp [toInternalValue, isRootOrTop, isBulkParent, hbne],
        dget_dset_self _ _ _,
        by simp [toInternalValueExt, isRootOrTop, isBulkParent, hbne]⟩
  · intro h
    push_neg at h
    have h1 : (method == "PUT") = false := beq_eq_false_iff_ne.mpr h.1
    have h2 : (method == "PATCH") = false := beq_eq_false_iff_ne.mpr h.2
    simp [toInternalValue, isRootOrTop, isBulkParent, h1, h2]
  · intro ctx h1 h2
    simp [toInternalValue, h1, h2]
  · simp [toInternalValueExt, isRootOrTop, isBulkParent]

theorem C6_bulk_put_patch_reinjects_identifier_witness :
    toInternalValue (.listP true false) "PUT" "id" (fun _ => []) []
      [("id", Val.vint 4)] = .ok (.payload [("id", Val.vint 4)]) ∧
    toInternalValue (.listP true false) "GET" "id" (fun _ => []) []
      [("id", Val.vint 4)] = .ok (.payload []) := by
  have h := C6_bulk_put_patch_reinjects_identifier "PUT" "id" (fun _ => [])
    [] [("id", Val.vint 4)] (fun r _ => .ok r) (fun _ => .ok ⟨0, []⟩)
    (by decide)
  have h2 := C6_bulk_put_patch_reinjects_identifier "GET" "id" (fun _ => [])
    [] [("id", Val.vint 4)] (fun r _ => .ok r) (fun _ => .ok ⟨0, []⟩)
    (by decide)
  exact ⟨(h.1 (Or.inl rfl)).1,
    h2.2.1 (by rintro (hc | hc) <;> exact absurd hc (by decide))⟩

/-- C8: store errors other than the bulk count mismatch propagate to the
caller unmodified: the lookup failure raised by `objects.get` during a
nested `to_internal_value` is re-raised as-is by both variants, for every
standard-validation and nested-save collaborator, and a failing store
create during `create` propagates exactly its own error — the serializer
neither catches nor translates them into validation failures. -/
theorem C8_store_errors_propagate_unmodified
    (ctx : ParentCtx) (method : String) (method2 : Option String)
    (idAttr : String) (store : List BRec) (data : Dict) (v : Val) (e : PyErr)
    (psave : BRec → Dict → Except PyErr BRec)
    (fsave : Dict → Except PyErr BRec)
    (fields : List (String × Bool)) (validated : Dict)
    (createRec : Dict → Except PyErr Unit) (e2 : PyErr)
    (hctx : isRootOrTop ctx = false)
    (hid : dget data idAttr = some v)
    (hobj : objectsGet store v = .error e)
    (hcr : createRec (createPartition fields validated).1 = .error e2) :
    (∀ validate, toInternalValue ctx method idAttr validate store data =
      .error e) ∧
    (∀ validate,
      toInternalValueExt ctx method2 idAttr validate store psave fsave data =
        .error e) ∧
    baseCreate fields createRec validated = .error e2 := by
  refine ⟨fun validate => ?_, fun validate => ?_, ?_⟩
  · simp [toInternalValue, hctx, hid, hobj]
  · simp [toInternalValueExt, hctx, hid, hobj]
  · simp [baseCreate, hcr]

theorem C8_store_errors_propagate_unmodified_witness :
    toInternalValue .serP "GET" "id" (fun d => d) [] [("id", Val.vint 5)] =
      .error .doesNotExist ∧
    baseCreate [("a", false)] (fun _ => .error .valueError)
      [("a", Val.vint 1)] = .error .valueError := by
  have h := C8_store_errors_propagate_unmodified .serP "GET" none "id" []
    [("id", Val.vint 5)] (.vint 5) .doesNotExist (fun r _ => .ok r)
    (fun _ => .ok ⟨0, []⟩) [("a", false)] [("a", Val.vint 1)]
    (fun _ => .error .valueError) .valueError rfl rfl rfl rfl
  exact ⟨h.1 (fun d => d), h.2.2⟩

theorem nodup_fields_inj (l : List (String × Bool))
    (hnd : (l.map Prod.fst).Nodup) (a b : String × Bool)
    (ha : a ∈ l) (hb : b ∈ l) (hab : a.1 = b.1) : a = b :=
  List.inj_on_of_nodup_map hnd ha hb hab

theorem createPartition_go (validated : Dict)
    (fields : List (String × Bool)) :
    ∀ accS accP,
      (∀ fb ∈ fields, fb.1 ∉ accS.map Prod.fst) →
      (∀ fb ∈ fields, fb.1 ∉ accP.map Prod.fst) →
      (fields.map Prod.fst).Nodup →
      fields.foldl
        (fun acc fb =>
          match dget validated fb.1 with
          | none => acc
          | some x =>
              if fb.2 then (acc.1, dset acc.2 fb.1 x)
              else (dset acc.1 fb.1 x, acc.2))
        (accS, accP) =
        (accS ++ scalarProj fields validated,
         accP ++ pluralProj fields validated) := by
  induction fields with
  | nil =>
      intro accS accP _ _ _
      simp [scalarProj, pluralProj]
  | cons fb rest ih =>
      intro accS accP hS hP hnd
      rw [List.map_cons] at hnd
      have hnd' := List.nodup_cons.mp hnd
      simp only [List.foldl_cons]
      cases hg : dget validated fb.1 with
      | none =>
          rw [ih accS accP (fun g hg2 => hS g (List.mem_cons_of_mem _ hg2))
            (fun g hg2 => hP g (List.mem_cons_of_mem _ hg2)) hnd'.2]
          simp [scalarProj, pluralProj, List.filterMap_cons, hg]
      | some x =>
          by_cases hp : fb.2
          · have hfresh : fb.1 ∉ accP.map Prod.fst :=
              hP fb (List.mem_cons_self _ _)
            simp only [hp, if_true]
            rw [dset_fresh _ _ _ hfresh]
            rw [ih accS (accP ++ [(fb.1, x)])
              (fun g hg2 => hS g (List.mem_cons_of_mem _ hg2))
              (fun g hg2 => by
                simp only [List.map_append, List.mem_append, List.map_cons,
                  List.map_nil, List.mem_singleton]
                rintro (hin | hin)
                · exact hP g (List.mem_cons_of_mem _ hg2) hin
                · exact hnd'.1 (hin ▸ List.mem_map_of_mem Prod.fst hg2))
              hnd'.2]
            simp [scalarProj, pluralProj, List.filterMap_cons, hg, hp]
          · have hfresh : fb.1 ∉ accS.map Prod.fst :=
              hS fb (List.mem_cons_self _ _)
            simp only [hp, Bool.false_eq_true, if_false]
            rw [dset_fresh _ _ _ hfresh]
            rw [ih (accS ++ [(fb.1, x)]) accP
              (fun g hg2 => by
                simp only [List.map_append, List.mem_append, List.map_cons,
                  List.map_nil, List.mem_singleton]
                rintro (hin | hin)
                · exact hS g (List.mem_cons_of_mem _ hg2) hin
                · exact hnd'.1 (hin ▸ List.mem_map_of_mem Prod.fst hg2))
              (fun g hg2 => hP g (List.mem_cons_of_mem _ hg2))
              hnd'.2]
            simp [scalarProj, pluralProj, List.filterMap_cons, hg, hp]

theorem createPartition_eq (fields : List (String × Bool)) (validated : Dict)
    (hnd : (fields.map Prod.fst).Nodup) :
    createPartition fields validated =
      (scalarProj fields validated, pluralProj fields validated) := by
  have h := createPartition_go validated fields [] [] (by simp) (by simp) hnd
  simpa [createPartition] using h

theorem scalarProj_plural_none (fields : List (String × Bool))
    (validated : Dict) (fb : String × Bool)
    (hnd : (fields.map Prod.fst).Nodup) (hmem : fb ∈ fields)
    (hp : fb.2 = true) :
    dget (scalarProj fields validated) fb.1 = none := by
  apply dget_none_of_not_mem
  intro hin
  rcases List.mem_map.mp hin with ⟨kv, hkv, hk1⟩
  rcases List.mem_filterMap.mp hkv with ⟨g, hgmem, hf⟩
  by_cases hg2 : g.2
  · rw [if_pos hg2] at hf
    exact Option.noConfusion hf
  · rw [if_neg hg2] at hf
    obtain ⟨x, hx, heq⟩ := Option.map_eq_some'.mp hf
    have h1 : kv.1 = g.1 := by rw [← heq]
    have hg1 : g.1 = fb.1 := h1.symm.trans hk1
    have hgfb : g = fb := nodup_fields_inj fields hnd g fb hgmem hmem hg1
    rw [hgfb] at hg2
    exact hg2 hp

/-- C4: `create` partitions the validated fields into plural
(ListSerializer- or ManyRelatedField-backed) versus scalar fields; the
record is created via the store's create operation with exactly the
scalar projection (which binds no plural field name), then each plural
field's values are attached, then the record is saved — persisted first
without the plural fields, associated, and persisted again, in that event
order. -/
theorem C4_create_scalar_first_then_attach_then_save
    (fields : List (String × Bool)) (validated : Dict)
    (createRec : Dict → Except PyErr Unit)
    (hnd : (fields.map Prod.fst).Nodup)
    (hok : createRec (scalarProj fields validated) = .ok ()) :
    baseCreate fields createRec validated =
      .ok (Ev.created (scalarProj fields validated) ::
        ((pluralProj fields validated).map (fun fx => Ev.attached fx.1 fx.2)
          ++ [Ev.saved])) ∧
    (∀ fb ∈ fields, fb.2 = true →
      dget (scalarProj fields validated) fb.1 = none) := by
  constructor
  · unfold baseCreate
    rw [createPartition_eq fields validated hnd]
    simp [hok]
  · exact fun fb hmem hp => scalarProj_plural_none fields validated fb hnd hmem hp

theorem C4_create_scalar_first_then_attach_then_save_witness :
    baseCreate [("n", false), ("tags", true)] (fun _ => .ok ())
      [("n", Val.vstr "a"), ("tags", Val.vnone)] =
      .ok [Ev.created [("n", Val.vstr "a")], Ev.attached "tags" Val.vnone,
        Ev.saved] :=
  (C4_create_scalar_first_then_attach_then_save
    [("n", false), ("tags", true)] [("n", Val.vstr "a"), ("tags", Val.vnone)]
    (fun _ => .ok ()) (by decide) rfl).1

theorem hget_hset_self (h : Heap) (a : Nat) (rd r : RecData)
    (hex : hget h a = some rd) : hget (hset h a r) a = some r := by
  induction h with
  | nil => simp [hget] at hex
  | cons p rest ih =>
      by_cases hp : (p.1 == a) = true
      · simp [hset, hp, hget, List.find?_cons]
      · have hpf : (p.1 == a) = false := by simpa using hp
        simp only [hget, List.find?_cons, hpf] at hex
        simp only [hset, hpf, Bool.false_eq_true, if_false]
        simp only [hget, List.find?_cons, hpf] at ih ⊢
        exact ih hex

theorem hget_hset_ne (h : Heap) (a b : Nat) (r : RecData) (hne : b ≠ a) :
    hget (hset h a r) b = hget h b := by
  induction h with
  | nil => rfl
  | cons p rest ih =>
      by_cases hp : (p.1 == a) = true
      · have hab : (a == b) = false := beq_eq_false_iff_ne.mpr (Ne.symm hne)
        have hpb : (p.1 == b) = false := by
          rw [beq_iff_eq.mp hp]
          exact hab
        simp only [hset, hp, if_true]
        simp only [hget, List.find?_cons, hab, hpb, Bool.false_eq_true,
          if_false]
      · have hpf : (p.1 == a) = false := by simpa using hp
        simp only [hset, hpf, Bool.false_eq_true, if_false]
        by_cases hq : (p.1 == b) = true
        · simp [hget, List.find?_cons, hq]
        · have hqf : (p.1 == b) = false := by simpa using hq
          simp only [hget, List.find?_cons, hqf, Bool.false_eq_true,
            if_false] at ih ⊢
          exact ih

theorem walkUpd_spec (f : String) (path : List String) :
    ∀ (h : Heap) (v : Dict) (a : Nat) (h' : Heap) (v' : Dict),
      walkUpd f path h v a = some (h', v') →
      ∃ leafA rd inner val,
        resolvePath h a path = some leafA ∧
        hget h leafA = some rd ∧
        nestedGet v path = some inner ∧
        dget inner f = some val ∧
        h' = hset h leafA ⟨dset rd.attrs f val, rd.saves + 1⟩ ∧
        pathClean f path v' := by
  induction path with
  | nil =>
      intro h v a h' v' hw
      simp only [walkUpd] at hw
      split at hw
      next r val hr hv =>
        rw [Option.some.injEq, Prod.mk.injEq] at hw
        obtain ⟨hw1, hw2⟩ := hw
        refine ⟨a, r, v, val, rfl, hr, rfl, hv, hw1.symm, ?_⟩
        rw [← hw2]
        exact dget_dremove_self v f
      next hno => exact Option.noConfusion hw
  | cons p rest ih =>
      intro h v a h' v' hw
      simp only [walkUpd] at hw
      split at hw
      next sub r hv hr =>
        split at hw
        next b hb =>
          split at hw
          next hwrec => exact Option.noConfusion hw
          next h2 sub' hwrec =>
            rw [Option.some.injEq, Prod.mk.injEq] at hw
            obtain ⟨hw1, hw2⟩ := hw
            obtain ⟨leafA, rd, inner, val, s1, s2, s3, s4, s5, s6⟩ :=
              ih h sub b h2 sub' hwrec
            refine ⟨leafA, rd, inner, val, ?_, s2, ?_, s4, ?_, ?_⟩
            · simp [resolvePath, hr, hb, s1]
            · simp [nestedGet, hv, s3]
            · rw [← hw1, s5]
            · rw [← hw2]
              by_cases hemp : sub'.isEmpty
              · rw [if_pos hemp]
                exact Or.inl (dget_dremove_self v p)
              · rw [if_neg hemp]
                refine Or.inr ⟨sub', dget_dset_self v p (.vdict sub'), ?_, s6⟩
                intro hc
                rw [hc] at hemp
                exact hemp rfl
        next hb => exact Option.noConfusion hw
      next hvr => exact Option.noConfusion hw

/-- C3 (amended): a dotted-source nested update whose descent succeeds
sets the field-named attribute on the record reached by the source path
(all atoms but the last) to the value found in the nested payload at the
field name, and saves that record once; records at other heap addresses —
in particular intermediate records strictly between the root and the leaf
— are untouched (not saved here); the leaf key is removed from its
payload mapping and every ancestor payload mapping emptied by the
extraction loses its path key; the remaining payload is delegated to the
standard update behaviour. -/
theorem C3_dotted_update_leaf_saved_ancestors_cleaned
    (su : Heap → Nat → Dict → Heap) (f : String) (src : List String)
    (h : Heap) (a : Nat) (v : Dict) (h' : Heap) (v' : Dict)
    (leafA : Nat) (rd : RecData) (inner : Dict) (val : Val)
    (hguard : (dget v f).isSome = true)
    (hw : updNestedField f src h a v = some (h', v'))
    (hres : resolvePath h a src.dropLast = some leafA)
    (hrd : hget h leafA = some rd)
    (hin : nestedGet v src.dropLast = some inner)
    (hval : dget inner f = some val) :
    hget h' leafA = some ⟨dset rd.attrs f val, rd.saves + 1⟩ ∧
    dget (dset rd.attrs f val) f = some val ∧
    (∀ b, b ≠ leafA → hget h' b = hget h b) ∧
    pathClean f src.dropLast v' ∧
    baseModelUpdate su f src h a v = some (su h' a v') := by
  have hw' : walkUpd f src.dropLast h v a = some (h', v') := by
    unfold updNestedField at hw
    rw [if_pos hguard] at hw
    exact hw
  obtain ⟨leafA', rd', inner', val', s1, s2, s3, s4, s5, s6⟩ :=
    walkUpd_spec f src.dropLast h v a h' v' hw'
  have e1 : leafA' = leafA := Option.some.inj (s1.symm.trans hres)
  subst e1
  have e2 : rd' = rd := Option.some.inj (s2.symm.trans hrd)
  subst e2
  have e3 : inner' = inner := Option.some.inj (s3.symm.trans hin)
  subst e3
  have e4 : val' = val := Option.some.inj (s4.symm.trans hval)
  subst e4
  refine ⟨?_, dget_dset_self _ _ _, ?_, s6, ?_⟩
  · rw [s5]
    exact hget_hset_self h leafA' rd' _ s2
  · intro b hb
    rw [s5]
    exact hget_hset_ne h leafA' b _ hb
  · simp [baseModelUpdate, hw]

theorem C3_dotted_update_leaf_saved_ancestors_cleaned_witness :
    hget [(0, ⟨[("parent", Val.vref 1)], 0⟩),
          (1, ⟨[("child", Val.vref 2)], 0⟩),
          (2, ⟨[("y", Val.vint 0), ("x", Val.vint 7)], 1⟩)] 2 =
      some ⟨[("y", Val.vint 0), ("x", Val.vint 7)], 1⟩ ∧
    baseModelUpdate (fun hp _ _ => hp) "x" ["parent", "child", "attr"]
      [(0, ⟨[("parent", Val.vref 1)], 0⟩),
       (1, ⟨[("child", Val.vref 2)], 0⟩),
       (2, ⟨[("y", Val.vint 0)], 0⟩)] 0
      [("x", Val.vint 7),
       ("parent", Val.vdict [("child", Val.vdict [("x", Val.vint 7)])])] =
      some [(0, ⟨[("parent", Val.vref 1)], 0⟩),
            (1, ⟨[("child", Val.vref 2)], 0⟩),
            (2, ⟨[("y", Val.vint 0), ("x", Val.vint 7)], 1⟩)] := by
  have h := C3_dotted_update_leaf_saved_ancestors_cleaned
    (fun hp _ _ => hp) "x" ["parent", "child", "attr"]
    [(0, ⟨[("parent", Val.vref 1)], 0⟩),
     (1, ⟨[("child", Val.vref 2)], 0⟩),
     (2, ⟨[("y", Val.vint 0)], 0⟩)] 0
    [("x", Val.vint 7),
     ("parent", Val.vdict [("child", Val.vdict [("x", Val.vint 7)])])]
    [(0, ⟨[("parent", Val.vref 1)], 0⟩),
     (1, ⟨[("child", Val.vref 2)], 0⟩),
     (2, ⟨[("y", Val.vint 0), ("x", Val.vint 7)], 1⟩)]
    [("x", Val.vint 7)] 2 ⟨[("y", Val.vint 0)], 0⟩ [("x", Val.vint 7)]
    (Val.vint 7) rfl rfl rfl rfl rfl rfl
  exact ⟨h.1, h.2.2.2.2⟩

theorem C3_every_intermediate_saved_counterexample :
    updNestedField "x" ["parent", "child", "attr"]
      [(0, ⟨[("parent", Val.vref 1)], 0⟩),
       (1, ⟨[("child", Val.vref 2)], 0⟩),
       (2, ⟨[("y", Val.vint 0)], 0⟩)] 0
      [("x", Val.vint 7),
       ("parent", Val.vdict [("child", Val.vdict [("x", Val.vint 7)])])] =
      some ([(0, ⟨[("parent", Val.vref 1)], 0⟩),
             (1, ⟨[("child", Val.vref 2)], 0⟩),
             (2, ⟨[("y", Val.vint 0), ("x", Val.vint 7)], 1⟩)],
            [("x", Val.vint 7)]) ∧
    resolvePath [(0, ⟨[("parent", Val.vref 1)], 0⟩),
                 (1, ⟨[("child", Val.vref 2)], 0⟩),
                 (2, ⟨[("y", Val.vint 0)], 0⟩)] 0 ["parent"] = some 1 ∧
    (hget [(0, ⟨[("parent", Val.vref 1)], 0⟩),
           (1, ⟨[("child", Val.vref 2)], 0⟩),
           (2, ⟨[("y", Val.vint 0), ("x", Val.vint 7)], 1⟩)] 1).map
      RecData.saves = some 0 :=
  ⟨rfl, rfl, rfl⟩
